import Mathlib

/-!
Shallow embedding of the request-orchestration layer of
`src/server/server.js` (universal-video-downloader): the proxy health
registry (`getHealthyProxy`, `markProxyBad`), the request gate and
strategy chain (`runSafeYtDlp`), the extraction invoker's result
classification (`executeYtDlp`), the metadata-cache route
(`/api/video-info`), and the streaming route's event wiring
(`/api/stream-download`).

Modelling conventions: JavaScript `Map`s become association lists
accessed only through get/set/delete (the modelled code never iterates
these maps); timestamps are `Nat` milliseconds and each request's
`Date.now()` calls are a single `now` parameter; the subprocess's
behaviour on each strategy attempt is an input (a list of per-attempt
outcomes), and the per-attempt shuffle of the proxy pool is an input
permutation; `setTimeout` delays do not change any modelled state and
are dropped.
-/

namespace VideoServer

/-- JS `Map.prototype.get`, on an association list. -/
def mapGet {α : Type} : List (String × α) → String → Option α
  | [], _ => none
  | (k', v) :: rest, k => if k' = k then some v else mapGet rest k

/-- JS `Map.prototype.set`: replace the entry if the key is present,
otherwise append it. -/
def mapSet {α : Type} : List (String × α) → String → α → List (String × α)
  | [], k, v => [(k, v)]
  | (k', v') :: rest, k, v =>
    if k' = k then (k, v) :: rest else (k', v') :: mapSet rest k v

/-- JS `Map.prototype.delete`: remove the entry for the key. -/
def mapDel {α : Type} : List (String × α) → String → List (String × α)
  | [], _ => []
  | (k', v') :: rest, k => if k' = k then rest else (k', v') :: mapDel rest k

/-- The health record stored in `proxyHealth`:
`{ fails: number, bannedUntil: number }` (server.js:30). -/
structure ProxyHealth where
  fails : Nat
  bannedUntil : Nat
deriving DecidableEq

abbrev HealthMap := List (String × ProxyHealth)

/-- Accumulator update of the selection loop (server.js:52-55): keep
the proxy with the strictly smaller `bannedUntil` (`none` stands for
the initial `minBanTime = Infinity`). -/
def bestUpd (p : String) (bu : Nat) : Option (String × Nat) → Option (String × Nat)
  | none => some (p, bu)
  | some (q, m) => if bu < m then some (p, bu) else some (q, m)

/-- The scanning loop of `getHealthyProxy` (server.js:41-56): walk the
shuffled pool; a proxy with no health record is returned at once; a
proxy whose ban has expired is unbanned (record deleted) and returned;
otherwise the proxy with the soonest `bannedUntil` seen so far is
tracked in the accumulator (`bestBadProxy` / `minBanTime`). -/
def ghpLoop (now : Nat) :
    List String → HealthMap → Option (String × Nat) →
      Option String × HealthMap × Option (String × Nat)
  | [], health, best => (none, health, best)
  | p :: rest, health, best =>
    match mapGet health p with
    | none => (some p, health, best)
    | some h =>
      if now > h.bannedUntil then (some p, mapDel health p, best)
      else ghpLoop now rest health (bestUpd p h.bannedUntil best)

/-- `getHealthyProxy` (server.js:32-66). `pool` is `PROXY_POOL` and
`shuffled` is the randomly shuffled copy made on entry; the caller
supplies the permutation. Returns the selected proxy (if any) together
with the updated `proxyHealth` map. -/
def getHealthyProxy (pool shuffled : List String) (health : HealthMap) (now : Nat) :
    Option String × HealthMap :=
  if pool = [] then (none, health)
  else
    match ghpLoop now shuffled health none with
    | (some p, h, _) => (some p, h)
    | (none, h, some (q, _)) => (some q, h)
    | (none, h, none) => (pool.head?, h)

/-- Characterization helper for the selection loop: the first proxy in
the shuffled order that is either never-seen or whose ban has expired. -/
def firstAvail (health : HealthMap) (now : Nat) : List String → Option String
  | [] => none
  | p :: rest =>
    match mapGet health p with
    | none => some p
    | some h => if now > h.bannedUntil then some p else firstAvail health now rest

/-- `markProxyBad` (server.js:68-80): increment the proxy's failure
count; at 2 or more failures set a ban of 10 minutes. Defined by the
source but — decisively for the proxy-health claims — never invoked
anywhere in it. -/
def markProxyBad (health : HealthMap) (proxy : Option String) (now : Nat) : HealthMap :=
  match proxy with
  | none => health
  | some p =>
    let h := (mapGet health p).getD ⟨0, 0⟩
    let h1 : ProxyHealth := ⟨h.fails + 1, h.bannedUntil⟩
    let h2 : ProxyHealth :=
      if h1.fails ≥ 2 then ⟨h1.fails, now + 10 * 60 * 1000⟩ else h1
    mapSet health p h2

/-- Character-list test that `pre` begins `l`. -/
def strHasPre : List Char → List Char → Bool
  | [], _ => true
  | _ :: _, [] => false
  | a :: as, b :: bs => (a = b) && strHasPre as bs

/-- Character-list test that `needle` occurs somewhere in the haystack. -/
def strHasSubAux (needle : List Char) : List Char → Bool
  | [] => strHasPre needle []
  | c :: rest => strHasPre needle (c :: rest) || strHasSubAux needle rest

/-- JS `String.prototype.includes`. -/
def strHasSub (hay needle : String) : Bool := strHasSubAux needle.data hay.data

/-- Whitespace test for `trim`. -/
def isWs (c : Char) : Bool := (c = ' ') || (c = '\n') || (c = '\t') || (c = '\r')

/-- JS `String.prototype.trim`: strip whitespace from both ends. -/
def strTrim (s : String) : String :=
  ⟨((s.data.dropWhile isWs).reverse.dropWhile isWs).reverse⟩

/-- The JS `Error` thrown by `executeYtDlp` / rethrown by the chain:
`message`, plus the optional `stderr` property that is set only on the
`BOT_DETECTED` error (server.js:136-137). -/
structure AttemptErr where
  message : String
  stderrTxt : Option String
deriving DecidableEq

/-- The settled promise of one `executeYtDlp` call. -/
inductive AttemptRes where
  | ok (out : String)
  | err (e : AttemptErr)
deriving DecidableEq

/-- Result classification of `executeYtDlp` on process close
(server.js:130-145): non-zero exit with a bot-detection marker in
stderr is the `BOT_DETECTED` error carrying stderr; other non-zero
exits reject with the trimmed stderr text (or `Exit code n` when
empty) and no `stderr` property; zero exit resolves with the trimmed
stdout. -/
def executeYtDlp (code : Int) (stdoutS stderrS : String) : AttemptRes :=
  if code ≠ 0 then
    if strHasSub stderrS "Sign in to confirm" || strHasSub stderrS "bot" ||
        strHasSub stderrS "429" then
      .err ⟨"BOT_DETECTED", some stderrS⟩
    else
      .err ⟨if strTrim stderrS = "" then "Exit code " ++ toString code else strTrim stderrS,
            none⟩
  else
    .ok (strTrim stdoutS)

/-- The retry test of the strategy loop's catch block (server.js:246):
`error.message === BOT_DETECTED || (error.stderr && (error.stderr.includes(429)
|| error.stderr.includes(network)))`. -/
def isRetryable (e : AttemptErr) : Bool :=
  (e.message = "BOT_DETECTED") ||
    (match e.stderrTxt with
     | some s => strHasSub s "429" || strHasSub s "network"
     | none => false)

/-- What `runSafeYtDlp`'s strategy loop produces: a returned value, a
thrown error, or the throw of the `null` initial `lastError` (only
possible with zero strategies; the source always has three). -/
inductive ChainResult where
  | ok (out : String)
  | thrown (e : AttemptErr)
  | thrownNull
deriving DecidableEq

/-- The strategy loop of `runSafeYtDlp` (server.js:204-255): for each
strategy, select a proxy via `getHealthyProxy` (mutating the health
map), run the attempt; on success return; on a retryable error record
it as `lastError` and continue; on any other error throw it at once;
when strategies are exhausted throw `lastError`. Each list element
pairs the shuffle used for that attempt's proxy selection with the
attempt's outcome; the third component of the result counts the
subprocess invocations made. `markProxyBad` is never called here,
mirroring the source. -/
def chainLoop (pool : List String) (now : Nat) :
    List (List String × AttemptRes) → HealthMap → Option AttemptErr →
      ChainResult × HealthMap × Nat
  | [], health, last =>
    ((match last with
      | some e => ChainResult.thrown e
      | none => ChainResult.thrownNull), health, 0)
  | (shuf, att) :: rest, health, _last =>
    let sel := getHealthyProxy pool shuf health now
    match att with
    | .ok out => (.ok out, sel.2, 1)
    | .err e =>
      if isRetryable e then
        let r := chainLoop pool now rest sel.2 (some e)
        (r.1, r.2.1, r.2.2 + 1)
      else (.thrown e, sel.2, 1)

/-- The mutable server state touched by `runSafeYtDlp`: `ipLocks`,
`recentRequests` (ip to url and timestamp), and `proxyHealth`
(server.js:20-30). -/
structure ServerState where
  ipLocks : List (String × Bool)
  recentRequests : List (String × String × Nat)
  proxyHealth : HealthMap
deriving DecidableEq

/-- Outcome of one `runSafeYtDlp` call. -/
inductive RunResult where
  | queueFull
  | rateLimitDuplicate
  | ok (out : String)
  | thrown (e : AttemptErr)
  | thrownNull
deriving DecidableEq

/-- The duplicate-request test (server.js:163-164): the stored last
request exists, is for the same url, and is under 15 seconds old. -/
def dupHit (st : ServerState) (ip url : String) (now : Nat) : Bool :=
  match mapGet st.recentRequests ip with
  | some (u, t) => (u = url) && decide (now - t < 15000)
  | none => false

/-- `runSafeYtDlp` (server.js:154-261): throw `QUEUE_FULL` if the ip
lock is held; throw `RATE_LIMIT_DUPLICATE` on the cooldown test; then
record the request in `recentRequests`, acquire the lock, run the
strategy loop, and in `finally` delete the lock. The result's third
component counts subprocess invocations. -/
def runSafeYtDlp (pool : List String) (st : ServerState) (ip url : String) (now : Nat)
    (attempts : List (List String × AttemptRes)) : RunResult × ServerState × Nat :=
  if (mapGet st.ipLocks ip).getD false then (.queueFull, st, 0)
  else if dupHit st ip url now then (.rateLimitDuplicate, st, 0)
  else
    let recent1 := mapSet st.recentRequests ip (url, now)
    let locks1 := mapSet st.ipLocks ip true
    let c := chainLoop pool now attempts st.proxyHealth none
    ((match c.1 with
      | .ok out => RunResult.ok out
      | .thrown e => RunResult.thrown e
      | .thrownNull => RunResult.thrownNull),
     ⟨mapDel locks1 ip, recent1, c.2.1⟩, c.2.2)

/-- HTTP responses of the `/api/video-info` route. -/
inductive InfoResp where
  | json (data : String)
  | badRequest
  | busy429
  | dup429
  | proxies503
  | bot503
  | fail500
deriving DecidableEq

/-- The `/api/video-info` handler (server.js:307-368). `parse` stands
for `JSON.parse` composed with the pure format-mapping of the handler
body (an engine primitive plus field shuffling; `none` models a thrown
parse error, caught by the route's catch). A cached entry under 60
seconds old is served as stored; otherwise the gated extraction runs,
a successful parse is cached with the current time, and thrown errors
map to statuses by their message. Returns the response, the new cache,
the new server state, and the subprocess-invocation count. -/
def videoInfo (pool : List String) (parse : String → Option String)
    (cache : List (String × Nat × String)) (st : ServerState) (ip url : String)
    (now : Nat) (attempts : List (List String × AttemptRes)) :
    InfoResp × List (String × Nat × String) × ServerState × Nat :=
  if url = "" then (.badRequest, cache, st, 0)
  else
    match mapGet cache url with
    | some (t, data) =>
      if now - t < 60000 then (.json data, cache, st, 0)
      else videoInfoFetch pool parse cache st ip url now attempts
    | none => videoInfoFetch pool parse cache st ip url now attempts
where
  videoInfoFetch (pool : List String) (parse : String → Option String)
      (cache : List (String × Nat × String)) (st : ServerState) (ip url : String)
      (now : Nat) (attempts : List (List String × AttemptRes)) :
      InfoResp × List (String × Nat × String) × ServerState × Nat :=
    let r := runSafeYtDlp pool st ip url now attempts
    match r.1 with
    | .ok out =>
      match parse out with
      | some data => (.json data, mapSet cache url (now, data), r.2.1, r.2.2)
      | none => (.fail500, cache, r.2.1, r.2.2)
    | .queueFull => (.busy429, cache, r.2.1, r.2.2)
    | .rateLimitDuplicate => (.dup429, cache, r.2.1, r.2.2)
    | .thrown e =>
      ((if e.message = "QUEUE_FULL" then InfoResp.busy429
        else if e.message = "RATE_LIMIT_DUPLICATE" then InfoResp.dup429
        else if e.message = "NO_HEALTHY_PROXIES" then InfoResp.proxies503
        else if e.message = "BOT_DETECTED" then InfoResp.bot503
        else InfoResp.fail500), cache, r.2.1, r.2.2)
    | .thrownNull => (.fail500, cache, r.2.1, r.2.2)

/-- Observable state of one `/api/stream-download` request
(server.js:403-463) after the yt-dlp child is spawned: whether the
child is still running, and whether `kill()` has been invoked on it. -/
structure StreamState where
  procAlive : Bool
  killed : Bool
deriving DecidableEq

/-- Events delivered to the handlers the route registers: stderr data
(logged only), the child closing on its own, and the request's `close`
event. -/
inductive StreamEvent where
  | stderrData (msg : String)
  | procClose (code : Int)
  | reqClose
deriving DecidableEq

/-- State just after `spawn` (server.js:446): child running, not killed. -/
def streamInit : StreamState := ⟨true, false⟩

/-- The event handlers registered by the route (server.js:450-462):
stderr data is only logged; the child's own close ends it; the
request's `close` event invokes `ytProcess.kill()`. -/
def streamStep (s : StreamState) (e : StreamEvent) : StreamState :=
  match e with
  | .stderrData _ => s
  | .procClose _ => { s with procAlive := false }
  | .reqClose => { procAlive := false, killed := true }

/-- Deliver a sequence of events to a freshly opened stream. -/
def streamRun (events : List StreamEvent) : StreamState :=
  events.foldl streamStep streamInit

/-- Sample bot-detection error as produced by `executeYtDlp`. -/
def botErr : AttemptErr := ⟨"BOT_DETECTED", some "Sign in to confirm"⟩

theorem mapGet_mapSet_self {α : Type} (m : List (String × α)) (k : String) (v : α) :
    mapGet (mapSet m k v) k = some v := by
  induction m with
  | nil => simp [mapSet, mapGet]
  | cons hd tl ih =>
    obtain ⟨k', v'⟩ := hd
    by_cases h : k' = k
    · simp [mapSet, mapGet, h]
    · simp [mapSet, mapGet, h, ih]

theorem mapGet_eq_none {α : Type} (m : List (String × α)) (k : String)
    (h : k ∉ m.map Prod.fst) : mapGet m k = none := by
  induction m with
  | nil => rfl
  | cons hd tl ih =>
    obtain ⟨k', v'⟩ := hd
    simp only [List.map_cons, List.mem_cons] at h
    push_neg at h
    rw [mapGet, if_neg (fun hh => h.1 hh.symm)]
    exact ih h.2

theorem mapGet_del_set {α : Type} (m : List (String × α)) (k : String) (v : α)
    (hnd : (m.map Prod.fst).Nodup) : mapGet (mapDel (mapSet m k v) k) k = none := by
  induction m with
  | nil => simp [mapSet, mapDel, mapGet]
  | cons hd tl ih =>
    obtain ⟨k', v'⟩ := hd
    rw [List.map_cons, List.nodup_cons] at hnd
    by_cases h : k' = k
    · subst h
      rw [mapSet, if_pos rfl, mapDel, if_pos rfl]
      exact mapGet_eq_none tl k' hnd.1
    · rw [mapSet, if_neg h, mapDel, if_neg h, mapGet, if_neg h]
      exact ih hnd.2

theorem streamStep_preserves_dead (s : StreamState) (e : StreamEvent)
    (h : s.procAlive = false) : (streamStep s e).procAlive = false := by
  cases e <;> simp [streamStep, h]

theorem streamFoldl_dead (events : List StreamEvent) (s : StreamState)
    (h : s.procAlive = false) : (events.foldl streamStep s).procAlive = false := by
  induction events generalizing s with
  | nil => exact h
  | cons e rest ih => exact ih _ (streamStep_preserves_dead s e h)

theorem stream_kill_aux (events : List StreamEvent) (s : StreamState)
    (h : StreamEvent.reqClose ∈ events) :
    (events.foldl streamStep s).procAlive = false := by
  induction events generalizing s with
  | nil => cases h
  | cons e rest ih =>
    rw [List.foldl_cons]
    rcases List.mem_cons.mp h with he | he
    · apply streamFoldl_dead
      rw [← he]
      rfl
    · exact ih _ he

/-- C2: when the downstream consumer disconnects (the request's
`close` event fires), the yt-dlp subprocess opened by
`/api/stream-download` is terminated, whatever else happens in the
event sequence — no subprocess outlives its consumer. -/
theorem stream_subprocess_killed_on_disconnect (events : List StreamEvent)
    (h : StreamEvent.reqClose ∈ events) : (streamRun events).procAlive = false :=
  stream_kill_aux events streamInit h

/-- C2 witness: a stream that receives the disconnect event ends with
the subprocess no longer running. -/
theorem stream_subprocess_killed_on_disconnect_witness :
    (streamRun [StreamEvent.stderrData "x", StreamEvent.reqClose]).procAlive = false :=
  stream_subprocess_killed_on_disconnect
    [StreamEvent.stderrData "x", StreamEvent.reqClose] (by decide)

/-- C8 counterexample: a zero exit with empty standard output is
classified by `executeYtDlp` as a resolved Success carrying the empty
string (server.js:143), not as a FatalFailure error as the claim
states. -/
theorem executeYtDlp_zero_empty_not_error :
    executeYtDlp 0 "" "ERROR: whatever" = .ok "" := by decide

/-- C8 amended: a zero exit always resolves as Success carrying the
trimmed standard output, whether or not the output is empty; in
particular zero exit with non-empty output is Success with the
trimmed text. Empty output on exit 0 is not classified as a failure by
the invoker. -/
theorem executeYtDlp_zero_exit_success (stdoutS stderrS : String) :
    executeYtDlp 0 stdoutS stderrS = .ok (strTrim stdoutS) := by
  simp [executeYtDlp]

/-- C5 code_bug evidence: in the scenario with three strategy attempts
where the first two fail with BOT_DETECTED and the third succeeds, the
chain succeeds but records zero proxy-failure reports — the health map
stays empty, because `markProxyBad` is defined (server.js:68) yet never
invoked anywhere in the source. Two reports, as the claim requires,
would have left the proxy with a failure count of 2, as the second
conjunct shows. -/
theorem chain_records_no_proxy_failures :
    chainLoop ["p1"] 0
        [(["p1"], .err botErr), (["p1"], .err botErr), (["p1"], .ok "META")] [] none
      = (.ok "META", ([] : HealthMap), 3)
    ∧ markProxyBad (markProxyBad [] (some "p1") 0) (some "p1") 0
      = [("p1", ⟨2, 600000⟩)] := by
  constructor <;> decide

/-- C6 counterexample: starting from the registry state produced by two
`markProxyBad` reports (failure count 2, banned until 600000), a
successful attempt that used that proxy leaves the failure count at 2 —
nothing in the success path resets it to 0. -/
theorem success_no_counter_reset_cex :
    markProxyBad (markProxyBad [] (some "p") 0) (some "p") 0 = [("p", ⟨2, 600000⟩)]
    ∧ (mapGet (chainLoop ["p"] 1000 [(["p"], .ok "OUT")]
          [("p", ⟨2, 600000⟩)] none).2.1 "p").map ProxyHealth.fails = some 2 := by
  constructor <;> decide

/-- C6 amended: a successful attempt performs no update at all to the
proxy health registry — the post-attempt registry is exactly the
registry left by that attempt's proxy selection — so an endpoint's
failure counter is never reset by success; it is cleared only when
selection finds the endpoint's ban expired and deletes its health
record. -/
theorem success_leaves_failure_counter :
    (∀ (pool : List String) (now : Nat) (shuf : List String) (out : String)
        (rest : List (List String × AttemptRes)) (health : HealthMap)
        (last : Option AttemptErr),
      chainLoop pool now ((shuf, AttemptRes.ok out) :: rest) health last
        = (.ok out, (getHealthyProxy pool shuf health now).2, 1))
    ∧ (∀ (pool : List String) (p : String) (tl : List String) (health : HealthMap)
        (h : ProxyHealth) (now : Nat),
      pool ≠ [] → mapGet health p = some h → now > h.bannedUntil →
      getHealthyProxy pool (p :: tl) health now = (some p, mapDel health p)) := by
  constructor
  · intro pool now shuf out rest health last
    rfl
  · intro pool p tl health h now hpool hget hban
    simp [getHealthyProxy, ghpLoop, hpool, hget, hban]

/-- C6 amended witness: a concrete successful attempt leaves the
registry at the selection result, and an expired ban is cleared by
selection. -/
theorem success_leaves_failure_counter_witness :
    chainLoop ["p"] 7 [(["p"], AttemptRes.ok "OUT")] [] none
      = (.ok "OUT", (getHealthyProxy ["p"] ["p"] [] 7).2, 1)
    ∧ getHealthyProxy ["p"] ["p"] [("p", ⟨1, 5⟩)] 10
      = (some "p", mapDel [("p", ⟨1, 5⟩)] "p") :=
  ⟨success_leaves_failure_counter.1 ["p"] 7 ["p"] "OUT" [] [] none,
   success_leaves_failure_counter.2 ["p"] "p" [] [("p", ⟨1, 5⟩)] ⟨1, 5⟩ 10
     (by decide) (by decide) (by decide)⟩

/-- C7 counterexample: a request rejected as Busy (first conjunct) or
as DuplicateCooldown (second conjunct) leaves `recentRequests`
untouched — the last-request record is written only after both gate
checks pass (server.js:168 comes after the checks at 158 and 164), not
before the busy check as the claim states. -/
theorem record_not_refreshed_on_rejection_cex :
    (runSafeYtDlp ["px"] ⟨[("c", true)], [("c", "u0", 0)], []⟩ "c" "u1" 20000 []
        = (.queueFull, ⟨[("c", true)], [("c", "u0", 0)], []⟩, 0)
      ∧ mapGet (runSafeYtDlp ["px"] ⟨[("c", true)], [("c", "u0", 0)], []⟩ "c" "u1"
            20000 []).2.1.recentRequests "c" = some ("u0", 0))
    ∧ (runSafeYtDlp ["px"] ⟨[], [("c", "u0", 10000)], []⟩ "c" "u0" 20000 []
        = (.rateLimitDuplicate, ⟨[], [("c", "u0", 10000)], []⟩, 0)
      ∧ mapGet (runSafeYtDlp ["px"] ⟨[], [("c", "u0", 10000)], []⟩ "c" "u0"
            20000 []).2.1.recentRequests "c" = some ("u0", 10000)) := by
  refine ⟨⟨?_, ?_⟩, ⟨?_, ?_⟩⟩ <;> decide

/-- C7 amended: the last-request record is updated only after the busy
check and the cooldown check both pass, immediately before lock
acquisition; a request rejected as Busy or as DuplicateCooldown leaves
the whole gate state (record included) unchanged; once both checks
pass, the record is set to the current url and time regardless of the
extraction attempt's outcome, so the cooldown window is measured from
the most recent request that passed the gate checks. -/
theorem record_refresh_on_admission (pool : List String) (st : ServerState)
    (ip url : String) (now : Nat) (attempts : List (List String × AttemptRes)) :
    ((mapGet st.ipLocks ip).getD false = true →
      runSafeYtDlp pool st ip url now attempts = (.queueFull, st, 0))
    ∧ ((mapGet st.ipLocks ip).getD false = false → dupHit st ip url now = true →
      runSafeYtDlp pool st ip url now attempts = (.rateLimitDuplicate, st, 0))
    ∧ ((mapGet st.ipLocks ip).getD false = false → dupHit st ip url now = false →
      mapGet (runSafeYtDlp pool st ip url now attempts).2.1.recentRequests ip
        = some (url, now)) := by
  refine ⟨fun h => by simp [runSafeYtDlp, h],
    fun h hd => by simp [runSafeYtDlp, h, hd],
    fun h hd => by simp [runSafeYtDlp, h, hd, mapGet_mapSet_self]⟩

/-- C7 amended witness: concrete busy rejection, duplicate rejection,
and admitted refresh. -/
theorem record_refresh_on_admission_witness :
    runSafeYtDlp ["px"] ⟨[("c", true)], [], []⟩ "c" "u" 0 []
      = (.queueFull, ⟨[("c", true)], [], []⟩, 0)
    ∧ runSafeYtDlp ["px"] ⟨[], [("c", "u", 0)], []⟩ "c" "u" 1000 []
      = (.rateLimitDuplicate, ⟨[], [("c", "u", 0)], []⟩, 0)
    ∧ mapGet (runSafeYtDlp ["px"] ⟨[], [], []⟩ "c" "u2" 20000 []).2.1.recentRequests "c"
      = some ("u2", 20000) :=
  ⟨(record_refresh_on_admission ["px"] ⟨[("c", true)], [], []⟩ "c" "u" 0 []).1 (by decide),
   (record_refresh_on_admission ["px"] ⟨[], [("c", "u", 0)], []⟩ "c" "u" 1000 []).2.1
     (by decide) (by decide),
   (record_refresh_on_admission ["px"] ⟨[], [], []⟩ "c" "u2" 20000 []).2.2
     (by decide) (by decide)⟩

/-- C1: if a client's in-flight flag is set, a further request from
that client is rejected as Busy with the state untouched and zero
subprocess invocations; and from any state where the flag is clear,
every call — whatever its outcome, success, thrown error, or cooldown
rejection — ends with the flag clear again (the lock is deleted in the
`finally`), so no sequence of requests leaves a client locked out. The
Nodup hypothesis is the key-uniqueness representation invariant of a
JS `Map`. -/
theorem gate_exclusive_and_released (pool : List String) (st : ServerState)
    (ip url : String) (now : Nat) (attempts : List (List String × AttemptRes)) :
    ((mapGet st.ipLocks ip).getD false = true →
      runSafeYtDlp pool st ip url now attempts = (.queueFull, st, 0))
    ∧ ((st.ipLocks.map Prod.fst).Nodup → (mapGet st.ipLocks ip).getD false = false →
      (mapGet (runSafeYtDlp pool st ip url now attempts).2.1.ipLocks ip).getD false
        = false) := by
  constructor
  · intro h
    simp [runSafeYtDlp, h]
  · intro hnd h
    by_cases hd : dupHit st ip url now
    · simp [runSafeYtDlp, h, hd]
    · simp [runSafeYtDlp, h, hd, mapGet_del_set st.ipLocks ip true hnd]

/-- C1 witness: a locked client is rejected Busy with no state change;
an unlocked client running a full (failing) chain ends unlocked. -/
theorem gate_exclusive_and_released_witness :
    runSafeYtDlp ["px"] ⟨[("c", true)], [], []⟩ "c" "u" 0 []
      = (.queueFull, ⟨[("c", true)], [], []⟩, 0)
    ∧ (mapGet (runSafeYtDlp ["px"] ⟨[], [], []⟩ "c" "u" 0
        [(["px"], .err botErr)]).2.1.ipLocks "c").getD false = false :=
  ⟨(gate_exclusive_and_released ["px"] ⟨[("c", true)], [], []⟩ "c" "u" 0 []).1 (by decide),
   (gate_exclusive_and_released ["px"] ⟨[], [], []⟩ "c" "u" 0
       [(["px"], .err botErr)]).2 (by decide) (by decide)⟩

/-- C3: with the client not in flight, a request for the same
(client, url) pair strictly under 15 seconds after the recorded last
request is rejected as DuplicateCooldown with the state untouched and
zero subprocess invocations; and a same-pair request 15 seconds or
more after the recorded last request is never rejected on cooldown
grounds, whatever the lock state. -/
theorem cooldown_window (pool : List String) (st : ServerState) (ip url : String)
    (now t : Nat) (attempts : List (List String × AttemptRes)) :
    ((mapGet st.ipLocks ip).getD false = false →
      mapGet st.recentRequests ip = some (url, t) → now - t < 15000 →
      runSafeYtDlp pool st ip url now attempts = (.rateLimitDuplicate, st, 0))
    ∧ (mapGet st.recentRequests ip = some (url, t) → 15000 ≤ now - t →
      (runSafeYtDlp pool st ip url now attempts).1 ≠ .rateLimitDuplicate) := by
  constructor
  · intro hb hr hlt
    have hd : dupHit st ip url now = true := by simp [dupHit, hr, hlt]
    simp [runSafeYtDlp, hb, hd]
  · intro hr hge
    have hd : dupHit st ip url now = false := by
      simp [dupHit, hr]
      omega
    by_cases hb : (mapGet st.ipLocks ip).getD false
    · simp [runSafeYtDlp, hb]
    · simp only [runSafeYtDlp, hb, hd, Bool.false_eq_true, if_false]
      rcases (chainLoop pool now attempts st.proxyHealth none).1 with _ | e | _ <;> simp

/-- C3 witness: a duplicate 1 second after the record is rejected on
cooldown; the same pair 20 seconds after is not. -/
theorem cooldown_window_witness :
    runSafeYtDlp ["px"] ⟨[], [("c", "u", 0)], []⟩ "c" "u" 1000 []
      = (.rateLimitDuplicate, ⟨[], [("c", "u", 0)], []⟩, 0)
    ∧ (runSafeYtDlp ["px"] ⟨[], [("c", "u", 0)], []⟩ "c" "u" 20000 []).1
      ≠ .rateLimitDuplicate :=
  ⟨(cooldown_window ["px"] ⟨[], [("c", "u", 0)], []⟩ "c" "u" 1000 0 []).1
     (by decide) (by decide) (by decide),
   (cooldown_window ["px"] ⟨[], [("c", "u", 0)], []⟩ "c" "u" 20000 0 []).2
     (by decide) (by decide)⟩

theorem chain_all_retryable_aux (pool : List String) (now : Nat) :
    ∀ (l : List (List String × AttemptRes)),
      (∀ x ∈ l, ∃ e, x.2 = AttemptRes.err e ∧ isRetryable e = true) →
      ∀ (health : HealthMap) (last : Option AttemptErr), l ≠ [] →
      ∃ x e, l.getLast? = some x ∧ x.2 = AttemptRes.err e ∧
        (chainLoop pool now l health last).1 = .thrown e := by
  intro l
  induction l with
  | nil => intro _ _ _ h; exact absurd rfl h
  | cons hd tl ih =>
    intro hall health last _
    obtain ⟨e, he, hre⟩ := hall hd (List.mem_cons_self _ _)
    obtain ⟨shuf, att⟩ := hd
    dsimp at he
    subst he
    cases tl with
    | nil =>
      refine ⟨(shuf, AttemptRes.err e), e, by simp, rfl, ?_⟩
      simp [chainLoop, hre]
    | cons t1 trest =>
      obtain ⟨x, e2, hgl, hx, hres⟩ :=
        ih (fun x hx => hall x (List.mem_cons_of_mem _ hx))
          (getHealthyProxy pool shuf health now).2 (some e) (by simp)
      refine ⟨x, e2, ?_, hx, ?_⟩
      · rw [List.getLast?_cons_cons]
        exact hgl
      · simp only [chainLoop, hre, if_true]
        exact hres

/-- C4: a strategy attempt failing with a non-retryable error — one
whose message is not `BOT_DETECTED` and whose stderr (when the error
carries one) matches neither `429` nor `network` — is thrown at once,
with exactly one subprocess invocation and independently of any
remaining profiles; and if every profile's attempt fails with a
retryable error, the chain throws the last attempt's error. -/
theorem chain_fatal_stops_last_error_returned (pool : List String) (now : Nat) :
    (∀ (shuf : List String) (e : AttemptErr) (rest : List (List String × AttemptRes))
        (health : HealthMap) (last : Option AttemptErr),
      isRetryable e = false →
      chainLoop pool now ((shuf, AttemptRes.err e) :: rest) health last
        = (.thrown e, (getHealthyProxy pool shuf health now).2, 1))
    ∧ (∀ (l : List (List String × AttemptRes)) (health : HealthMap), l ≠ [] →
      (∀ x ∈ l, ∃ e, x.2 = AttemptRes.err e ∧ isRetryable e = true) →
      ∃ x e, l.getLast? = some x ∧ x.2 = AttemptRes.err e ∧
        (chainLoop pool now l health none).1 = .thrown e) := by
  constructor
  · intro shuf e rest health last hre
    simp [chainLoop, hre]
  · intro l health hne hall
    exact chain_all_retryable_aux pool now l hall health none hne

/-- C4 witness: a fatal first attempt is thrown with the second
profile untouched; a chain of only retryable failures throws the last
one. -/
theorem chain_fatal_stops_last_error_returned_witness :
    chainLoop ["px"] 0
        [(["px"], .err ⟨"ERROR: Video unavailable", none⟩), (["px"], .ok "X")] [] none
      = (.thrown ⟨"ERROR: Video unavailable", none⟩,
         (getHealthyProxy ["px"] ["px"] [] 0).2, 1)
    ∧ ∃ x e, [(["px"], AttemptRes.err botErr)].getLast? = some x
        ∧ x.2 = AttemptRes.err e
        ∧ (chainLoop ["px"] 0 [(["px"], AttemptRes.err botErr)] [] none).1 = .thrown e :=
  ⟨(chain_fatal_stops_last_error_returned ["px"] 0).1 ["px"]
     ⟨"ERROR: Video unavailable", none⟩ [(["px"], .ok "X")] [] none (by decide),
   (chain_fatal_stops_last_error_returned ["px"] 0).2 [(["px"], AttemptRes.err botErr)] []
     (by decide)
     (by intro x hx
         rw [List.mem_singleton] at hx
         subst hx
         exact ⟨botErr, rfl, by decide⟩)⟩

theorem chainLoop_cons_spawns (pool : List String) (now : Nat)
    (x : List String × AttemptRes) (l : List (List String × AttemptRes))
    (health : HealthMap) (last : Option AttemptErr) :
    1 ≤ (chainLoop pool now (x :: l) health last).2.2 := by
  obtain ⟨shuf, att⟩ := x
  cases att with
  | ok out => simp [chainLoop]
  | err e =>
    by_cases h : isRetryable e
    · simp only [chainLoop, h, if_true]
      omega
    · simp [chainLoop, h]

theorem runSafe_admitted_spawns (pool : List String) (st : ServerState)
    (ip url : String) (now : Nat) (attempts : List (List String × AttemptRes))
    (h : (mapGet st.ipLocks ip).getD false = false)
    (hd : dupHit st ip url now = false) :
    (runSafeYtDlp pool st ip url now attempts).2.2
      = (chainLoop pool now attempts st.proxyHealth none).2.2 := by
  simp [runSafeYtDlp, h, hd]

theorem videoInfoFetch_spawns_cache (pool : List String) (parse : String → Option String)
    (cache : List (String × Nat × String)) (st : ServerState) (ip url : String)
    (now : Nat) (attempts : List (List String × AttemptRes)) :
    (videoInfo.videoInfoFetch pool parse cache st ip url now attempts).2.2.2
      = (runSafeYtDlp pool st ip url now attempts).2.2
    ∧ ((videoInfo.videoInfoFetch pool parse cache st ip url now attempts).2.1 = cache
       ∨ ∃ d, (videoInfo.videoInfoFetch pool parse cache st ip url now attempts).2.1
           = mapSet cache url (now, d)) := by
  rcases hr : (runSafeYtDlp pool st ip url now attempts).1 with _ | _ | out | e | _
  · exact ⟨by simp [videoInfo.videoInfoFetch, hr], Or.inl (by simp [videoInfo.videoInfoFetch, hr])⟩
  · exact ⟨by simp [videoInfo.videoInfoFetch, hr], Or.inl (by simp [videoInfo.videoInfoFetch, hr])⟩
  · rcases hp : parse out with _ | d
    · exact ⟨by simp [videoInfo.videoInfoFetch, hr, hp],
        Or.inl (by simp [videoInfo.videoInfoFetch, hr, hp])⟩
    · exact ⟨by simp [videoInfo.videoInfoFetch, hr, hp],
        Or.inr ⟨d, by simp [videoInfo.videoInfoFetch, hr, hp]⟩⟩
  · exact ⟨by simp [videoInfo.videoInfoFetch, hr], Or.inl (by simp [videoInfo.videoInfoFetch, hr])⟩
  · exact ⟨by simp [videoInfo.videoInfoFetch, hr], Or.inl (by simp [videoInfo.videoInfoFetch, hr])⟩

/-- C9: a cached metadata entry strictly younger than 60 seconds is
served exactly as stored, with no subprocess invocation and the cache
and server state untouched; once 60 seconds have passed the entry is
treated as absent — an admitted fetch with at least one strategy
invokes the subprocess again — yet the url keeps an entry in the cache
map (the stale entry is never deleted, only possibly overwritten). -/
theorem cache_ttl_discipline (pool : List String) (parse : String → Option String)
    (cache : List (String × Nat × String)) (st : ServerState) (ip url : String)
    (now : Nat) (attempts : List (List String × AttemptRes)) (t : Nat) (data : String) :
    (url ≠ "" → mapGet cache url = some (t, data) → now - t < 60000 →
      videoInfo pool parse cache st ip url now attempts = (.json data, cache, st, 0))
    ∧ (url ≠ "" → mapGet cache url = some (t, data) → 60000 ≤ now - t →
      (mapGet st.ipLocks ip).getD false = false → dupHit st ip url now = false →
      attempts ≠ [] →
      1 ≤ (videoInfo pool parse cache st ip url now attempts).2.2.2
        ∧ mapGet (videoInfo pool parse cache st ip url now attempts).2.1 url ≠ none) := by
  constructor
  · intro hu hc hlt
    simp [videoInfo, hu, hc, hlt]
  · intro hu hc hge hb hd hattempts
    have hnlt : ¬(now - t < 60000) := by omega
    have hvi : videoInfo pool parse cache st ip url now attempts
        = videoInfo.videoInfoFetch pool parse cache st ip url now attempts := by
      simp [videoInfo, hu, hc, hnlt]
    obtain ⟨x, l, rfl⟩ : ∃ x l, attempts = x :: l := by
      cases attempts with
      | nil => exact absurd rfl hattempts
      | cons x l => exact ⟨x, l, rfl⟩
    obtain ⟨hs, hcc⟩ := videoInfoFetch_spawns_cache pool parse cache st ip url now (x :: l)
    constructor
    · rw [hvi, hs, runSafe_admitted_spawns pool st ip url now (x :: l) hb hd]
      exact chainLoop_cons_spawns pool now x l st.proxyHealth none
    · rw [hvi]
      rcases hcc with hcc | ⟨d, hcc⟩
      · rw [hcc, hc]
        simp
      · rw [hcc, mapGet_mapSet_self]
        simp

/-- C9 witness: a 5-second-old entry is served as stored with zero
invocations; a 65-second-old entry leads to a fresh invocation while
the url stays present in the cache. -/
theorem cache_ttl_discipline_witness :
    videoInfo ["px"] some [("u", 5, "DATA")] ⟨[], [], []⟩ "c" "u" 10 []
      = (.json "DATA", [("u", 5, "DATA")], ⟨[], [], []⟩, 0)
    ∧ (1 ≤ (videoInfo ["px"] some [("u", 5, "DATA")] ⟨[], [], []⟩ "c" "u" 70000
          [(["px"], .ok "OUT")]).2.2.2
       ∧ mapGet (videoInfo ["px"] some [("u", 5, "DATA")] ⟨[], [], []⟩ "c" "u" 70000
          [(["px"], .ok "OUT")]).2.1 "u" ≠ none) :=
  ⟨(cache_ttl_discipline ["px"] some [("u", 5, "DATA")] ⟨[], [], []⟩ "c" "u" 10 [] 5
      "DATA").1 (by decide) (by decide) (by decide),
   (cache_ttl_discipline ["px"] some [("u", 5, "DATA")] ⟨[], [], []⟩ "c" "u" 70000
      [(["px"], .ok "OUT")] 5 "DATA").2 (by decide) (by decide) (by decide) (by decide)
      (by decide) (by decide)⟩

theorem ghpLoop_firstAvail (now : Nat) (shuffled : List String) :
    ∀ (health : HealthMap) (best : Option (String × Nat)) (p : String),
      firstAvail health now shuffled = some p →
      (ghpLoop now shuffled health best).1 = some p
      ∧ ((ghpLoop now shuffled health best).2.1 = health ∧ mapGet health p = none
         ∨ ∃ h, mapGet health p = some h ∧ now > h.bannedUntil
             ∧ (ghpLoop now shuffled health best).2.1 = mapDel health p) := by
  induction shuffled with
  | nil =>
    intro health best p hp
    exact absurd hp (by simp [firstAvail])
  | cons q rest ih =>
    intro health best p hp
    cases hget : mapGet health q with
    | none =>
      simp only [firstAvail, hget] at hp
      obtain rfl : q = p := Option.some.inj hp
      refine ⟨by simp [ghpLoop, hget], Or.inl ⟨by simp [ghpLoop, hget], hget⟩⟩
    | some h =>
      by_cases hban : now > h.bannedUntil
      · simp only [firstAvail, hget, if_pos hban] at hp
        obtain rfl : q = p := Option.some.inj hp
        exact ⟨by simp [ghpLoop, hget, hban],
          Or.inr ⟨h, hget, hban, by simp [ghpLoop, hget, hban]⟩⟩
      · simp only [firstAvail, hget, if_neg hban] at hp
        have hred : ghpLoop now (q :: rest) health best
            = ghpLoop now rest health (bestUpd q h.bannedUntil best) := by
          simp [ghpLoop, hget, hban]
        rw [hred]
        exact ih health (bestUpd q h.bannedUntil best) p hp

theorem firstAvail_none_banned (health : HealthMap) (now : Nat) :
    ∀ (shuffled : List String), firstAvail health now shuffled = none →
      ∀ r ∈ shuffled, ∃ hr, mapGet health r = some hr ∧ ¬ now > hr.bannedUntil := by
  intro shuffled
  induction shuffled with
  | nil => intro _ r hr; cases hr
  | cons q rest ih =>
    intro hfa r hr
    cases hget : mapGet health q with
    | none =>
      simp only [firstAvail, hget] at hfa
      exact Option.noConfusion hfa
    | some h =>
      by_cases hban : now > h.bannedUntil
      · simp only [firstAvail, hget, if_pos hban] at hfa
        exact Option.noConfusion hfa
      · simp only [firstAvail, hget, if_neg hban] at hfa
        rcases List.mem_cons.mp hr with rfl | hmem
        · exact ⟨h, hget, hban⟩
        · exact ih hfa r hmem

theorem ghpLoop_banned_min (now : Nat) (shuffled : List String) :
    ∀ (health : HealthMap) (best : Option (String × Nat)),
      firstAvail health now shuffled = none →
      (ghpLoop now shuffled health best).1 = none
      ∧ (ghpLoop now shuffled health best).2.1 = health
      ∧ (∀ q0 m0, best = some (q0, m0) →
          ∃ q2 m2, (ghpLoop now shuffled health best).2.2 = some (q2, m2) ∧ m2 ≤ m0)
      ∧ (∀ r ∈ shuffled, ∀ hr : ProxyHealth, mapGet health r = some hr →
          ∃ q2 m2, (ghpLoop now shuffled health best).2.2 = some (q2, m2)
            ∧ m2 ≤ hr.bannedUntil)
      ∧ ((ghpLoop now shuffled health best).2.2 = best
         ∨ ∃ q ∈ shuffled, ∃ hq : ProxyHealth, mapGet health q = some hq
             ∧ (ghpLoop now shuffled health best).2.2 = some (q, hq.bannedUntil)) := by
  induction shuffled with
  | nil =>
    intro health best _
    refine ⟨rfl, rfl, ?_, ?_, Or.inl rfl⟩
    · intro q0 m0 hb
      exact ⟨q0, m0, hb, le_refl m0⟩
    · intro r hr
      cases hr
  | cons q rest ih =>
    intro health best hfa
    cases hget : mapGet health q with
    | none =>
      simp only [firstAvail, hget] at hfa
      exact Option.noConfusion hfa
    | some h =>
      by_cases hban : now > h.bannedUntil
      · simp only [firstAvail, hget, if_pos hban] at hfa
        exact Option.noConfusion hfa
      · simp only [firstAvail, hget, if_neg hban] at hfa
        obtain ⟨qb, mb, hbeq, hmbh, hmbbest, hborig⟩ :
            ∃ qb mb, bestUpd q h.bannedUntil best = some (qb, mb)
              ∧ mb ≤ h.bannedUntil
              ∧ (∀ q0 m0, best = some (q0, m0) → mb ≤ m0)
              ∧ ((∃ q0 m0, best = some (q0, m0) ∧ qb = q0 ∧ mb = m0)
                 ∨ (qb = q ∧ mb = h.bannedUntil)) := by
          cases best with
          | none =>
            refine ⟨q, h.bannedUntil, rfl, le_refl _, ?_, Or.inr ⟨rfl, rfl⟩⟩
            intro q0 m0 hh
            cases hh
          | some pair =>
            obtain ⟨q0, m0⟩ := pair
            by_cases hlt : h.bannedUntil < m0
            · refine ⟨q, h.bannedUntil, by simp [bestUpd, hlt], le_refl _, ?_,
                Or.inr ⟨rfl, rfl⟩⟩
              intro q1 m1 hh
              simp only [Option.some.injEq, Prod.mk.injEq] at hh
              rw [← hh.2]
              exact le_of_lt hlt
            · refine ⟨q0, m0, by simp [bestUpd, hlt], le_of_not_lt hlt, ?_,
                Or.inl ⟨q0, m0, rfl, rfl, rfl⟩⟩
              intro q1 m1 hh
              simp only [Option.some.injEq, Prod.mk.injEq] at hh
              rw [← hh.2]
        have hred : ghpLoop now (q :: rest) health best
            = ghpLoop now rest health (some (qb, mb)) := by
          rw [show ghpLoop now (q :: rest) health best
              = ghpLoop now rest health (bestUpd q h.bannedUntil best) from by
            simp [ghpLoop, hget, hban], hbeq]
        obtain ⟨ih1, ih2, ih3, ih4, ih5⟩ := ih health (some (qb, mb)) hfa
        obtain ⟨qf, mf, hfeq, hfle⟩ := ih3 qb mb rfl
        rw [hred]
        refine ⟨ih1, ih2, ?_, ?_, ?_⟩
        · intro q0 m0 hb
          exact ⟨qf, mf, hfeq, le_trans hfle (hmbbest q0 m0 hb)⟩
        · intro r hrmem hr hgetr
          rcases List.mem_cons.mp hrmem with rfl | hmem
          · obtain rfl : h = hr := Option.some.inj (hget.symm.trans hgetr)
            exact ⟨qf, mf, hfeq, le_trans hfle hmbh⟩
          · exact ih4 r hmem hr hgetr
        · rcases ih5 with hsame | ⟨q2, hq2mem, hq2, hgq2, heq2⟩
          · rcases hborig with ⟨q0, m0, hb0, hqe, hme⟩ | ⟨hqe, hme⟩
            · refine Or.inl ?_
              rw [hsame, hqe, hme]
              exact hb0.symm
            · refine Or.inr ⟨q, List.mem_cons_self _ _, h, hget, ?_⟩
              rw [hsame, hqe, hme]
          · exact Or.inr ⟨q2, List.mem_cons_of_mem _ hq2mem, hq2, hgq2, heq2⟩

theorem chainLoop_thrown_origin (pool : List String) (now : Nat) :
    ∀ (l : List (List String × AttemptRes)) (health : HealthMap)
      (last : Option AttemptErr) (e : AttemptErr),
      (chainLoop pool now l health last).1 = .thrown e →
      (∃ x ∈ l, x.2 = AttemptRes.err e) ∨ last = some e := by
  intro l
  induction l with
  | nil =>
    intro health last e h
    cases last with
    | none => simp [chainLoop] at h
    | some e0 =>
      right
      simp only [chainLoop] at h
      rw [show e0 = e from by injection h]
  | cons hd tl ih =>
    intro health last e h
    obtain ⟨shuf, att⟩ := hd
    cases att with
    | ok out => simp [chainLoop] at h
    | err e0 =>
      by_cases hre : isRetryable e0
      · simp only [chainLoop, hre, if_true] at h
        rcases ih _ _ e h with hin | hlast
        · obtain ⟨x, hx, hxe⟩ := hin
          exact Or.inl ⟨x, List.mem_cons_of_mem _ hx, hxe⟩
        · refine Or.inl ⟨(shuf, AttemptRes.err e0), List.mem_cons_self _ _, ?_⟩
          rw [show e0 = e from Option.some.inj hlast]
      · simp only [chainLoop, hre, if_false] at h
        refine Or.inl ⟨(shuf, AttemptRes.err e0), List.mem_cons_self _ _, ?_⟩
        rw [show e0 = e from by injection h]

/-- C10: proxy selection is total on a non-empty pool. With an empty
pool it returns null; with a non-empty pool it returns the first
never-seen or ban-expired endpoint of the shuffled order when one
exists (deleting the expired record as a side effect), otherwise a
banned endpoint whose ban expires soonest (registry untouched); hence
for any shuffle of a non-empty pool some endpoint is returned. The
gate itself never fabricates a `NO_HEALTHY_PROXIES` error: every error
thrown out of `runSafeYtDlp` originates in one of the attempts, so the
503 "no healthy proxies" branch of the route is unreachable from the
gate's own logic. -/
theorem proxy_selection_total (pool shuffled : List String) (health : HealthMap)
    (now : Nat) :
    (pool = [] → getHealthyProxy pool shuffled health now = (none, health))
    ∧ (pool ≠ [] → ∀ p, firstAvail health now shuffled = some p →
        (getHealthyProxy pool shuffled health now).1 = some p
        ∧ ((getHealthyProxy pool shuffled health now).2 = health ∧ mapGet health p = none
           ∨ ∃ h, mapGet health p = some h ∧ now > h.bannedUntil
               ∧ (getHealthyProxy pool shuffled health now).2 = mapDel health p))
    ∧ (pool ≠ [] → shuffled ≠ [] → firstAvail health now shuffled = none →
        ∃ q hq, (getHealthyProxy pool shuffled health now).1 = some q
          ∧ (getHealthyProxy pool shuffled health now).2 = health
          ∧ mapGet health q = some hq ∧ q ∈ shuffled
          ∧ ∀ r ∈ shuffled, ∀ hr : ProxyHealth, mapGet health r = some hr →
              hq.bannedUntil ≤ hr.bannedUntil)
    ∧ (pool ≠ [] → shuffled.Perm pool →
        ∃ p, (getHealthyProxy pool shuffled health now).1 = some p)
    ∧ (∀ (st : ServerState) (ip url : String)
        (attempts : List (List String × AttemptRes)) (e : AttemptErr),
        (runSafeYtDlp pool st ip url now attempts).1 = RunResult.thrown e →
        ∃ x ∈ attempts, x.2 = AttemptRes.err e) := by
  have part1 : pool = [] → getHealthyProxy pool shuffled health now = (none, health) := by
    intro h
    simp [getHealthyProxy, h]
  have part2 : pool ≠ [] → ∀ p, firstAvail health now shuffled = some p →
      (getHealthyProxy pool shuffled health now).1 = some p
      ∧ ((getHealthyProxy pool shuffled health now).2 = health ∧ mapGet health p = none
         ∨ ∃ h, mapGet health p = some h ∧ now > h.bannedUntil
             ∧ (getHealthyProxy pool shuffled health now).2 = mapDel health p) := by
    intro hpool p hp
    obtain ⟨H1, H2⟩ := ghpLoop_firstAvail now shuffled health none p hp
    rcases hg : ghpLoop now shuffled health none with ⟨o, h2, b⟩
    rw [hg] at H1 H2
    dsimp only at H1 H2
    subst H1
    have hsel : getHealthyProxy pool shuffled health now = (some p, h2) := by
      simp [getHealthyProxy, hpool, hg]
    rcases H2 with ⟨hh, hnone⟩ | ⟨h0, hget, hban, hdel⟩
    · exact ⟨by rw [hsel], Or.inl ⟨by rw [hsel, hh], hnone⟩⟩
    · exact ⟨by rw [hsel], Or.inr ⟨h0, hget, hban, by rw [hsel, hdel]⟩⟩
  have part3 : pool ≠ [] → shuffled ≠ [] → firstAvail health now shuffled = none →
      ∃ q hq, (getHealthyProxy pool shuffled health now).1 = some q
        ∧ (getHealthyProxy pool shuffled health now).2 = health
        ∧ mapGet health q = some hq ∧ q ∈ shuffled
        ∧ ∀ r ∈ shuffled, ∀ hr : ProxyHealth, mapGet health r = some hr →
            hq.bannedUntil ≤ hr.bannedUntil := by
    intro hpool hsh hfa
    obtain ⟨L1, L2, L3, L4, L5⟩ := ghpLoop_banned_min now shuffled health none hfa
    rcases L5 with hbn | ⟨q, hqmem, hq, hgetq, heqb⟩
    · obtain ⟨r, hrmem⟩ : ∃ r, r ∈ shuffled := by
        cases shuffled with
        | nil => exact absurd rfl hsh
        | cons a l => exact ⟨a, List.mem_cons_self _ _⟩
      obtain ⟨hr, hgetr, _⟩ := firstAvail_none_banned health now shuffled hfa r hrmem
      obtain ⟨q2, m2, hq2, _⟩ := L4 r hrmem hr hgetr
      rw [hbn] at hq2
      exact Option.noConfusion hq2
    · have hg : ghpLoop now shuffled health none
          = (none, health, some (q, hq.bannedUntil)) := by
        rcases hgg : ghpLoop now shuffled health none with ⟨o, hm, b⟩
        rw [hgg] at L1 L2 heqb
        dsimp only at L1 L2 heqb
        rw [L1, L2, heqb]
      have hsel : getHealthyProxy pool shuffled health now = (some q, health) := by
        simp [getHealthyProxy, hpool, hg]
      refine ⟨q, hq, by rw [hsel], by rw [hsel], hgetq, hqmem, ?_⟩
      intro r hrmem hr hgetr
      obtain ⟨q2, m2, hq2, hle⟩ := L4 r hrmem hr hgetr
      have hpair : (q, hq.bannedUntil) = (q2, m2) :=
        Option.some.inj (heqb.symm.trans hq2)
      simp only [Prod.mk.injEq] at hpair
      rw [hpair.2]
      exact hle
  refine ⟨part1, part2, part3, ?_, ?_⟩
  · intro hpool hperm
    cases hfa : firstAvail health now shuffled with
    | some p => exact ⟨p, (part2 hpool p hfa).1⟩
    | none =>
      have hsh : shuffled ≠ [] := by
        intro hnil
        subst hnil
        exact hpool hperm.symm.eq_nil
      obtain ⟨q, _, hq1, _⟩ := part3 hpool hsh hfa
      exact ⟨q, hq1⟩
  · intro st ip url attempts e h
    by_cases hb : (mapGet st.ipLocks ip).getD false
    · simp [runSafeYtDlp, hb] at h
    · by_cases hd : dupHit st ip url now
      · simp [runSafeYtDlp, hb, hd] at h
      · simp only [runSafeYtDlp, hb, hd, Bool.false_eq_true, if_false] at h
        rcases hc : (chainLoop pool now attempts st.proxyHealth none).1 with out | e0 | _
        · rw [hc] at h
          cases h
        · rw [hc] at h
          obtain rfl : e0 = e := by injection h
          rcases chainLoop_thrown_origin pool now attempts st.proxyHealth none e0 hc
            with hin | hlast
          · exact hin
          · cases hlast
        · rw [hc] at h
          cases h

/-- C10 witness: empty pool gives null; a fresh proxy is selected
first; with every proxy banned the soonest-expiring one is forced; a
shuffle of a non-empty pool always yields a proxy; a thrown gate error
comes from an attempt. -/
theorem proxy_selection_total_witness :
    getHealthyProxy [] ["a"] [] 0 = (none, [])
    ∧ ((getHealthyProxy ["a"] ["a"] [] 0).1 = some "a"
       ∧ ((getHealthyProxy ["a"] ["a"] [] 0).2 = [] ∧ mapGet ([] : HealthMap) "a" = none
          ∨ ∃ h, mapGet ([] : HealthMap) "a" = some h ∧ 0 > h.bannedUntil
              ∧ (getHealthyProxy ["a"] ["a"] [] 0).2 = mapDel [] "a"))
    ∧ (∃ q hq,
        (getHealthyProxy ["a", "b"] ["a", "b"] [("a", ⟨2, 900⟩), ("b", ⟨2, 500⟩)] 100).1
          = some q
        ∧ (getHealthyProxy ["a", "b"] ["a", "b"]
            [("a", ⟨2, 900⟩), ("b", ⟨2, 500⟩)] 100).2
          = [("a", ⟨2, 900⟩), ("b", ⟨2, 500⟩)]
        ∧ mapGet [("a", (⟨2, 900⟩ : ProxyHealth)), ("b", ⟨2, 500⟩)] q = some hq
        ∧ q ∈ ["a", "b"]
        ∧ ∀ r ∈ ["a", "b"], ∀ hr : ProxyHealth,
            mapGet [("a", (⟨2, 900⟩ : ProxyHealth)), ("b", ⟨2, 500⟩)] r = some hr →
            hq.bannedUntil ≤ hr.bannedUntil)
    ∧ (∃ p, (getHealthyProxy ["a", "b"] ["b", "a"] [] 42).1 = some p)
    ∧ (∃ x ∈ [(["a"], AttemptRes.err ⟨"ERROR: gone", none⟩)],
        x.2 = AttemptRes.err ⟨"ERROR: gone", none⟩) :=
  ⟨(proxy_selection_total [] ["a"] [] 0).1 rfl,
   (proxy_selection_total ["a"] ["a"] [] 0).2.1 (by decide) "a" (by decide),
   (proxy_selection_total ["a", "b"] ["a", "b"] [("a", ⟨2, 900⟩), ("b", ⟨2, 500⟩)]
      100).2.2.1 (by decide) (by decide) (by decide),
   (proxy_selection_total ["a", "b"] ["b", "a"] [] 42).2.2.2.1 (by decide) (by decide),
   (proxy_selection_total ["a"] ["a"] [] 0).2.2.2.2
     ⟨[], [], []⟩ "c" "u" [(["a"], AttemptRes.err ⟨"ERROR: gone", none⟩)]
     ⟨"ERROR: gone", none⟩ (by decide)⟩

end VideoServer
